import Mathlib

/-!
Verification of the mortgage-and-investment scenario engine in `home.py`.

The engine is embedded shallowly over `ℚ` (exact rational arithmetic in
place of Python floats).  Python exceptions (`ZeroDivisionError`,
`IndexError`) are modelled by `Option`: `none` means the call raises.
NumPy's global random generator is modelled by an explicitly passed
family of draw values: `draws i t` is the sample that
`np.random.normal` produces for trial `i`, period `t`.
-/

namespace PersonalFinance

/-- Embedding of `maandlast(principal, annual_rate, years)` (home.py lines
21-26), years as a Python integer (may be zero or negative).  `r =
annual_rate/12`, `n = years*12`; the zero-rate branch returns
`principal/n`, the general branch returns
`principal*(r*(1+r)**n)/((1+r)**n - 1)`.  `none` models the
`ZeroDivisionError` raised when `n = 0` in the first branch, when the
denominator `(1+r)**n - 1` is zero in the second, or when `0.0 ** n`
with `n < 0` is attempted. -/
def maandlast (principal annual_rate : ℚ) (years : ℤ) : Option ℚ :=
  let r := annual_rate / 12
  let n : ℤ := years * 12
  if r = 0 then
    if (n : ℚ) = 0 then none else some (principal / (n : ℚ))
  else if 1 + r = 0 ∧ n < 0 then none
  else if (1 + r) ^ n - 1 = 0 then none
  else some (principal * (r * (1 + r) ^ n) / ((1 + r) ^ n - 1))

/-- The value `maandlast` computes on the non-raising path, for a
natural number of years (the form used inside the scenario loop, where
`years` is one of the positive terms offered by the sidebar). -/
def maandlastPos (principal annual_rate : ℚ) (years : ℕ) : ℚ :=
  let r := annual_rate / 12
  let n : ℕ := years * 12
  if r = 0 then principal / (n : ℚ)
  else principal * (r * (1 + r) ^ n) / ((1 + r) ^ n - 1)

/-- Embedding of `totale_afbetaling(principal, annual_rate, years)`
(home.py lines 28-29): `maandlast(...) * years * 12`. -/
def totale_afbetaling (principal annual_rate : ℚ) (years : ℤ) : Option ℚ :=
  (maandlast principal annual_rate years).map (fun m => m * (years : ℚ) * 12)

/-- Total-function form of `totale_afbetaling` on the non-raising path. -/
def totale_afbetalingPos (principal annual_rate : ℚ) (years : ℕ) : ℚ :=
  maandlastPos principal annual_rate years * (years : ℚ) * 12

/-- The annuity formula exactly as the specification words it (spec
section 4.1), kept separate from the source embedding so the two can be
compared: if `r = 0` payment is `principal/n`, otherwise
`principal·r·(1+r)^n / ((1+r)^n − 1)`. -/
def monthly_payment_spec (principal annual_rate : ℚ) (years : ℕ) : ℚ :=
  let r := annual_rate / 12
  let n : ℕ := years * 12
  if r = 0 then principal / (n : ℚ)
  else principal * r * (1 + r) ^ n / ((1 + r) ^ n - 1)

/-- Embedding of `np.cumprod` over a list: entry `k` is the product of
the first `k+1` entries. -/
def cumprod (l : List ℚ) : List ℚ :=
  (List.range l.length).map (fun k => (l.take (k + 1)).prod)

/-- The list `startkapitaal * np.cumprod(1 + returns, axis=1)[:, -1]`
computed by `monte_carlo_etf_return` when it does not raise: one entry
per trial `i`, namely `startkapitaal` times the last entry of the
cumulative product of `1 + draws i t` over the periods `t < years`. -/
def eindwaardenPos (startkapitaal : ℚ) (draws : ℕ → ℕ → ℚ) (nSim years : ℕ) : List ℚ :=
  (List.range nSim).map (fun i =>
    let g := cumprod ((List.range years).map (fun t => 1 + draws i t))
    startkapitaal * g.getD (g.length - 1) 1)

/-- Embedding of `monte_carlo_etf_return(startkapitaal, mean, vol,
years, n_simulaties)` (home.py lines 31-36).  The random draws are the
explicit `draws` family.  `none` models the `IndexError` raised by
`groeiperioden[:, -1]` when the matrix has zero columns (`years = 0`). -/
def monte_carlo_etf_return (startkapitaal : ℚ) (draws : ℕ → ℕ → ℚ) (nSim years : ℕ) :
    Option (List ℚ) :=
  if years = 0 then none else some (eindwaardenPos startkapitaal draws nSim years)

/-- Embedding of `np.mean`: sum divided by length. -/
def npMean (xs : List ℚ) : ℚ := xs.sum / (xs.length : ℚ)

/-- Insertion of an element into an ascending list, for the sort used
by the percentile computation. -/
def insertAsc (a : ℚ) : List ℚ → List ℚ
  | [] => [a]
  | b :: l => if a ≤ b then a :: b :: l else b :: insertAsc a l

/-- Ascending insertion sort, standing in for the sort that
`np.percentile` performs on its input. -/
def sortAsc : List ℚ → List ℚ
  | [] => []
  | a :: l => insertAsc a (sortAsc l)

/-- Embedding of `np.percentile(xs, q)` with the default linear
interpolation between order statistics: with `s` the sorted data and
`h = (len(s)-1)*q/100`, the result is
`s[⌊h⌋] + (h-⌊h⌋)*(s[⌈h⌉] - s[⌊h⌋])`. -/
def npPercentile (q : ℚ) (xs : List ℚ) : ℚ :=
  let s := sortAsc xs
  let h : ℚ := ((s.length : ℚ) - 1) * q / 100
  let lo := (⌊h⌋).toNat
  let hi := (⌈h⌉).toNat
  s.getD lo 0 + (h - (⌊h⌋ : ℚ)) * (s.getD hi 0 - s.getD lo 0)

/-- One row of the scenario table (home.py lines 63-74). -/
structure ScenarioRecord where
  looptijd : ℕ
  rente : ℚ
  inbreng : ℕ
  lening : ℤ
  maand : ℚ
  totaleAfbetaling : ℚ
  gemOpbrengst : ℚ
  p5Opbrengst : ℚ
  nettoKostMean : ℚ
  nettoKostWorst : ℚ
  deriving DecidableEq, Repr

/-- Embedding of `np.arange(0, totale_spaarpot + 1, 1000)` (home.py
line 45): the multiples of 1000 that are at most `savings`. -/
def inbreng_values (savings : ℕ) : List ℕ :=
  (List.range (savings / 1000 + 1)).map (fun k => k * 1000)

/-- The scenario record the loop body builds for a down payment `E`
that is not skipped (home.py lines 50-74): loan `L = price - E`,
monthly payment `maandlast(L, rente/100, looptijd)`, total repayment
`maand * looptijd * 12`, investable capital `savings - E`, simulated
terminal values, their mean and 5th percentile, and the two net costs. -/
def recordAt (price : ℤ) (savings : ℕ) (looptijd : ℕ) (rente : ℚ) (nSim : ℕ)
    (draws : ℕ → ℕ → ℚ) (E : ℕ) : ScenarioRecord :=
  let L : ℤ := price - (E : ℤ)
  let maand := maandlastPos (L : ℚ) (rente / 100) looptijd
  let tot := maand * (looptijd : ℚ) * 12
  let belegbaar : ℚ := (savings : ℚ) - (E : ℚ)
  let eind := eindwaardenPos belegbaar draws nSim looptijd
  let meanSim := npMean eind
  let p5Sim := npPercentile 5 eind
  { looptijd := looptijd, rente := rente, inbreng := E, lening := L,
    maand := maand, totaleAfbetaling := tot, gemOpbrengst := meanSim,
    p5Opbrengst := p5Sim, nettoKostMean := tot - meanSim,
    nettoKostWorst := tot - p5Sim }

/-- The body of the inner grid loop (home.py lines 46-74) for one
down-payment value `E`: skip the combination (`none`) when the loan
amount `price - E` is negative, otherwise build the scenario record. -/
def mkRecord (price : ℤ) (savings : ℕ) (looptijd : ℕ) (rente : ℚ) (nSim : ℕ)
    (draws : ℕ → ℕ → ℚ) (E : ℕ) : Option ScenarioRecord :=
  if price - (E : ℤ) < 0 then none
  else some (recordAt price savings looptijd rente nSim draws E)

/-- The scenario records produced for one `(term, rate)` cell: the
inner loop over the down-payment grid, keeping the combinations that
are not skipped.  `draws E` is the matrix of random samples the global
generator yields for the cell's simulation at down payment `E`. -/
def cellRecords (price : ℤ) (savings : ℕ) (looptijd : ℕ) (rente : ℚ) (nSim : ℕ)
    (draws : ℕ → ℕ → ℕ → ℚ) : List ScenarioRecord :=
  (inbreng_values savings).filterMap
    (fun E => mkRecord price savings looptijd rente nSim (draws E) E)

/-- The full scenario table (home.py lines 40-76): the nested loops
over every requested term and rate.  `draws t r E` is the sample matrix
the process-global generator yields for cell `(t, r, E)`. -/
def scenarioTable (price : ℤ) (savings : ℕ) (looptijden : List ℕ) (rentes : List ℚ)
    (nSim : ℕ) (draws : ℕ → ℚ → ℕ → ℕ → ℕ → ℚ) : List ScenarioRecord :=
  looptijden.flatMap (fun t => rentes.flatMap
    (fun r => cellRecords price savings t r nSim (draws t r)))

/-- The rows of one `(term, rate)` group of `df.groupby` (home.py line
80): the table rows carrying that key, in table order. -/
def groupFor (t : ℕ) (r : ℚ) (table : List ScenarioRecord) : List ScenarioRecord :=
  table.filter (fun rec => decide (rec.looptijd = t ∧ rec.rente = r))

/-- Embedding of `group.loc[group[col].idxmin()]` (home.py lines
83-84): the first record of the list attaining the minimal value of
`f`. -/
def firstMinBy (f : ScenarioRecord → ℚ) : List ScenarioRecord → Option ScenarioRecord
  | [] => none
  | x :: xs =>
    match firstMinBy f xs with
    | none => some x
    | some y => some (if f x ≤ f y then x else y)

lemma maandlastPos_eq_spec (P rate : ℚ) (years : ℕ) :
    maandlastPos P rate years = monthly_payment_spec P rate years := by
  unfold maandlastPos monthly_payment_spec
  by_cases h : rate / 12 = 0
  · simp [h]
  · simp only [h, if_false]
    rw [mul_assoc]

set_option maxRecDepth 4000 in
lemma maandlast_eq_pos (P rate : ℚ) (years : ℤ) (hy : 0 < years) (hr : 0 ≤ rate) :
    maandlast P rate years = some (maandlastPos P rate years.toNat) := by
  have hcast : (years * 12 : ℤ) = ((years.toNat * 12 : ℕ) : ℤ) := by
    push_cast [Int.toNat_of_nonneg hy.le]
    ring
  by_cases h0 : rate = 0
  · subst h0
    have hn : ((years * 12 : ℤ) : ℚ) ≠ 0 := by
      have : (0 : ℤ) < years * 12 := by positivity
      exact_mod_cast this.ne'
    simp only [maandlast, maandlastPos, zero_div, if_pos rfl, hn, if_false, if_neg hn]
    rw [hcast]
    push_cast
    ring_nf
  · have hr' : 0 < rate := hr.lt_of_ne (Ne.symm h0)
    have hrr : 0 < rate / 12 := by positivity
    have h1r : (0 : ℚ) < 1 + rate / 12 := by linarith
    have hz : (1 + rate / 12) ^ (years * 12 : ℤ) = (1 + rate / 12) ^ (years.toNat * 12 : ℕ) := by
      rw [hcast, zpow_natCast]
    have hk : years.toNat * 12 ≠ 0 := by omega
    have hA : 1 < (1 + rate / 12) ^ (years.toNat * 12) := by
      refine one_lt_pow₀ ?_ hk
      linarith
    have hc1 : ¬ (rate / 12 = 0) := hrr.ne'
    have hc2 : ¬ (1 + rate / 12 = 0 ∧ years * 12 < 0) := by
      rintro ⟨h, -⟩
      linarith
    have hc3 : ¬ ((1 + rate / 12) ^ (years * 12 : ℤ) - 1 = 0) := by
      rw [hz]
      intro h
      linarith
    simp only [maandlast, maandlastPos]
    rw [if_neg hc1, if_neg hc2, if_neg hc3, hz, if_neg hc1]

lemma maandlast_zero_years (P rate : ℚ) : maandlast P rate 0 = none := by
  by_cases h0 : rate / 12 = 0
  · simp [maandlast, h0]
  · simp [maandlast, h0]

/-- The payment `maandlastPos` is linear in the principal with a
strictly positive coefficient, for a nonnegative rate and a positive
term. -/
lemma maandlastPos_linear (rate : ℚ) (years : ℕ) (hr : 0 ≤ rate) (hy : 0 < years) :
    ∃ c : ℚ, 0 < c ∧ ∀ P : ℚ, maandlastPos P rate years = P * c := by
  by_cases h0 : rate = 0
  · subst h0
    refine ⟨1 / (years * 12 : ℕ), ?_, ?_⟩
    · have : (0 : ℚ) < ((years * 12 : ℕ) : ℚ) := by
        have : 0 < years * 12 := by omega
        exact_mod_cast this
      positivity
    · intro P
      simp only [maandlastPos]
      rw [if_pos (by norm_num : (0 : ℚ) / 12 = 0), div_eq_mul_one_div]
  · have hr' : 0 < rate := hr.lt_of_ne (Ne.symm h0)
    have hrr : 0 < rate / 12 := by positivity
    have hk : years * 12 ≠ 0 := by omega
    have hA : 1 < (1 + rate / 12) ^ (years * 12) := by
      refine one_lt_pow₀ ?_ hk
      linarith
    have hApos : 0 < (1 + rate / 12) ^ (years * 12) := by positivity
    refine ⟨rate / 12 * (1 + rate / 12) ^ (years * 12) /
      ((1 + rate / 12) ^ (years * 12) - 1), ?_, ?_⟩
    · have hD : 0 < (1 + rate / 12) ^ (years * 12) - 1 := by linarith
      positivity
    · intro P
      simp only [maandlastPos, hrr.ne', if_false, if_neg hrr.ne']
      rw [mul_div_assoc]

/-- Counterexample to claim C4 as stated: `maandlast` does not fail
with `InvalidTermError` on `years ≤ 0` nor with `InvalidRateError` on a
negative rate.  At `years = -1, rate = 0` it raises nothing and returns
`-10`, and at the negative rate `-1.2` it also returns a value. -/
theorem claim4_counterexample :
    maandlast 120 0 (-1) = some (-10) ∧ (maandlast 100 (-6 / 5) 1).isSome = true := by
  constructor
  · simp only [maandlast]
    norm_num
  · simp only [maandlast]
    norm_num

/-- Claim C4 (amended): `maandlast` performs no input validation.  With
`years = 0` it raises `ZeroDivisionError` (not `InvalidTermError`); for
`years > 0` and `rate ≥ 0` it always succeeds and returns the annuity
value; invalid inputs (`years < 0`, negative rates) are not flagged, as
the counterexample shows. -/
theorem claim4_no_validation (P rate : ℚ) :
    maandlast P rate 0 = none ∧
    (∀ years : ℤ, 0 < years → 0 ≤ rate →
      maandlast P rate years = some (maandlastPos P rate years.toNat)) :=
  ⟨maandlast_zero_years P rate, fun years hy hr => maandlast_eq_pos P rate years hy hr⟩

/-- Witness for claim C4's amended theorem: at `P = 12, rate = 0`, the
call with `years = 0` raises and the call with `years = 1` succeeds. -/
theorem claim4_witness :
    maandlast 12 0 0 = none ∧ maandlast 12 0 1 = some (maandlastPos 12 0 1) :=
  ⟨(claim4_no_validation 12 0).1,
   (claim4_no_validation 12 0).2 1 (by norm_num) (by norm_num)⟩

/-- Claim C1: for principal `P ≥ 0`, nonnegative rate and years `N > 0`,
`maandlast` returns exactly the piecewise annuity formula the spec
states (with `r = rate/12`, `n = N*12`); `totale_afbetaling` is the
payment times `N` times 12, so at rate zero it equals `P`. -/
theorem claim1_amortization_formula (P rate : ℚ) (N : ℕ) (hP : 0 ≤ P) (hr : 0 ≤ rate)
    (hN : 0 < N) :
    maandlast P rate (N : ℤ) = some (monthly_payment_spec P rate N) ∧
    totale_afbetaling P rate (N : ℤ) = some (monthly_payment_spec P rate N * (N : ℚ) * 12) ∧
    (rate = 0 → totale_afbetaling P rate (N : ℤ) = some P) := by
  have hy : (0 : ℤ) < (N : ℤ) := by exact_mod_cast hN
  have h1 : maandlast P rate (N : ℤ) = some (monthly_payment_spec P rate N) := by
    rw [maandlast_eq_pos P rate (N : ℤ) hy hr, Int.toNat_natCast, maandlastPos_eq_spec]
  refine ⟨h1, ?_, ?_⟩
  · simp [totale_afbetaling, h1]
  · intro h0
    subst h0
    have hn : ((N * 12 : ℕ) : ℚ) ≠ 0 := by
      have : 0 < N * 12 := by omega
      exact_mod_cast this.ne'
    simp only [totale_afbetaling, h1, Option.map_some]
    simp only [monthly_payment_spec, zero_div, if_pos rfl]
    field_simp
    ring

/-- Witness for claim C1: the formula equality and the rate-zero total
at `P = 1, rate = 0, N = 1`. -/
theorem claim1_witness :
    maandlast 1 0 (1 : ℤ) = some (monthly_payment_spec 1 0 1) ∧
    totale_afbetaling 1 0 (1 : ℤ) = some 1 :=
  ⟨(claim1_amortization_formula 1 0 1 (by norm_num) (by norm_num) (by norm_num)).1,
   (claim1_amortization_formula 1 0 1 (by norm_num) (by norm_num) (by norm_num)).2.2 rfl⟩

/-- Key inequality behind claim C6: for a positive periodic rate `r`
and at least one period, `(1+r)^m - 1 < m * r * (1+r)^m`. -/
lemma annuity_denom_lt (r : ℚ) (hr : 0 < r) :
    ∀ m : ℕ, 1 ≤ m → (1 + r) ^ m - 1 < (m : ℚ) * r * (1 + r) ^ m := by
  intro m hm
  induction m, hm using Nat.le_induction with
  | base =>
    simp only [pow_one, Nat.cast_one]
    nlinarith
  | succ n hn ih =>
    have h1 : (0 : ℚ) < 1 + r := by linarith
    have hpow : (1 : ℚ) ≤ (1 + r) ^ (n + 1) := one_le_pow₀ (by linarith)
    have step1 : (1 + r) ^ (n + 1) - 1 = (1 + r) * ((1 + r) ^ n - 1) + r := by ring
    have step2 : (1 + r) * ((1 + r) ^ n - 1) + r <
        (1 + r) * ((n : ℚ) * r * (1 + r) ^ n) + r := by
      have := mul_lt_mul_of_pos_left ih h1
      linarith
    have step3 : (1 + r) * ((n : ℚ) * r * (1 + r) ^ n) + r =
        (n : ℚ) * r * (1 + r) ^ (n + 1) + r := by ring
    have step4 : (n : ℚ) * r * (1 + r) ^ (n + 1) + r ≤
        (n : ℚ) * r * (1 + r) ^ (n + 1) + r * (1 + r) ^ (n + 1) := by nlinarith
    have step5 : (n : ℚ) * r * (1 + r) ^ (n + 1) + r * (1 + r) ^ (n + 1) =
        ((n + 1 : ℕ) : ℚ) * r * (1 + r) ^ (n + 1) := by
      push_cast
      ring
    linarith

/-- Claim C6: with a strictly positive principal, rate and term, the
total nominal repayment strictly exceeds the principal. -/
theorem claim6_total_exceeds_principal (P rate : ℚ) (years : ℤ)
    (hP : 0 < P) (hr : 0 < rate) (hy : 0 < years) :
    totale_afbetaling P rate years = some (totale_afbetalingPos P rate years.toNat) ∧
    P < totale_afbetalingPos P rate years.toNat := by
  have h1 : maandlast P rate years = some (maandlastPos P rate years.toNat) :=
    maandlast_eq_pos P rate years hy hr.le
  have hyy : ((years.toNat : ℕ) : ℚ) = ((years : ℤ) : ℚ) := by
    exact_mod_cast congrArg (fun z : ℤ => (z : ℚ)) (Int.toNat_of_nonneg hy.le)
  constructor
  · simp only [totale_afbetaling, h1, Option.map_some', totale_afbetalingPos, hyy]
  · set yt := years.toNat with hyt
    have hyt1 : 1 ≤ yt := by omega
    have hrr : 0 < rate / 12 := by positivity
    have hk1 : 1 ≤ yt * 12 := by omega
    set A := (1 + rate / 12) ^ (yt * 12) with hA
    have hA1 : 1 < A := by
      rw [hA]
      refine one_lt_pow₀ ?_ (by omega)
      linarith
    have hD : 0 < A - 1 := by linarith
    have key : A - 1 < ((yt * 12 : ℕ) : ℚ) * (rate / 12) * A :=
      annuity_denom_lt (rate / 12) hrr (yt * 12) hk1
    have hform : maandlastPos P rate yt = P * (rate / 12 * A) / (A - 1) := by
      simp only [maandlastPos, if_neg hrr.ne', hA]
    have htot : totale_afbetalingPos P rate yt =
        P * (((yt * 12 : ℕ) : ℚ) * (rate / 12) * A / (A - 1)) := by
      simp only [totale_afbetalingPos, hform]
      field_simp
      ring
    rw [htot]
    have hgt1 : 1 < ((yt * 12 : ℕ) : ℚ) * (rate / 12) * A / (A - 1) :=
      (one_lt_div hD).mpr key
    exact lt_mul_of_one_lt_right hP hgt1

/-- Witness for claim C6 at `P = 1, rate = 12, years = 1`. -/
theorem claim6_witness :
    totale_afbetaling 1 12 1 = some (totale_afbetalingPos 1 12 1) ∧
    (1 : ℚ) < totale_afbetalingPos 1 12 1 :=
  claim6_total_exceeds_principal 1 12 1 (by norm_num) (by norm_num) (by norm_num)

@[simp] lemma recordAt_looptijd (price : ℤ) (savings looptijd : ℕ) (rente : ℚ) (nSim : ℕ)
    (draws : ℕ → ℕ → ℚ) (E : ℕ) :
    (recordAt price savings looptijd rente nSim draws E).looptijd = looptijd := rfl

@[simp] lemma recordAt_rente (price : ℤ) (savings looptijd : ℕ) (rente : ℚ) (nSim : ℕ)
    (draws : ℕ → ℕ → ℚ) (E : ℕ) :
    (recordAt price savings looptijd rente nSim draws E).rente = rente := rfl

@[simp] lemma recordAt_inbreng (price : ℤ) (savings looptijd : ℕ) (rente : ℚ) (nSim : ℕ)
    (draws : ℕ → ℕ → ℚ) (E : ℕ) :
    (recordAt price savings looptijd rente nSim draws E).inbreng = E := rfl

@[simp] lemma recordAt_lening (price : ℤ) (savings looptijd : ℕ) (rente : ℚ) (nSim : ℕ)
    (draws : ℕ → ℕ → ℚ) (E : ℕ) :
    (recordAt price savings looptijd rente nSim draws E).lening = price - (E : ℤ) := rfl

@[simp] lemma recordAt_maand (price : ℤ) (savings looptijd : ℕ) (rente : ℚ) (nSim : ℕ)
    (draws : ℕ → ℕ → ℚ) (E : ℕ) :
    (recordAt price savings looptijd rente nSim draws E).maand =
      maandlastPos ((price - (E : ℤ) : ℤ) : ℚ) (rente / 100) looptijd := rfl

@[simp] lemma recordAt_totaleAfbetaling (price : ℤ) (savings looptijd : ℕ) (rente : ℚ)
    (nSim : ℕ) (draws : ℕ → ℕ → ℚ) (E : ℕ) :
    (recordAt price savings looptijd rente nSim draws E).totaleAfbetaling =
      maandlastPos ((price - (E : ℤ) : ℤ) : ℚ) (rente / 100) looptijd * (looptijd : ℚ) * 12 :=
  rfl

/-- The down-payment grid holds exactly the multiples of 1000 that do
not exceed the savings. -/
lemma mem_inbreng_values {savings E : ℕ} :
    E ∈ inbreng_values savings ↔ 1000 ∣ E ∧ E ≤ savings := by
  simp only [inbreng_values, List.mem_map, List.mem_range]
  constructor
  · rintro ⟨k, hk, rfl⟩
    exact ⟨⟨k, by ring⟩, by omega⟩
  · rintro ⟨⟨k, rfl⟩, hle⟩
    exact ⟨k, by omega, by ring⟩

/-- Characterization of the records one `(term, rate)` cell emits: one
record per grid down payment that does not exceed the price. -/
lemma mem_cellRecords {price : ℤ} {savings looptijd : ℕ} {rente : ℚ} {nSim : ℕ}
    {draws : ℕ → ℕ → ℕ → ℚ} {rec : ScenarioRecord} :
    rec ∈ cellRecords price savings looptijd rente nSim draws ↔
      ∃ E, E ∈ inbreng_values savings ∧ (E : ℤ) ≤ price ∧
        rec = recordAt price savings looptijd rente nSim (draws E) E := by
  simp only [cellRecords, List.mem_filterMap, mkRecord]
  constructor
  · rintro ⟨E, hE, hsome⟩
    by_cases h : price - (E : ℤ) < 0
    · rw [if_pos h] at hsome
      cases hsome
    · rw [if_neg h] at hsome
      exact ⟨E, hE, by omega, (Option.some_injective _ hsome).symm⟩
  · rintro ⟨E, hE, hle, rfl⟩
    exact ⟨E, hE, by rw [if_neg (by omega)]⟩

/-- Claim C7: within one `(term, rate)` cell of the grid, a strictly
larger down payment gives a strictly smaller loan amount, and (with a
nonnegative rate and positive term) a strictly smaller monthly payment
and total repayment. -/
theorem claim7_grid_monotonicity (price : ℤ) (savings looptijd : ℕ) (rente : ℚ) (nSim : ℕ)
    (draws : ℕ → ℕ → ℕ → ℚ) (hr : 0 ≤ rente) (hy : 0 < looptijd) :
    ∀ rec1 ∈ cellRecords price savings looptijd rente nSim draws,
    ∀ rec2 ∈ cellRecords price savings looptijd rente nSim draws,
      rec1.inbreng < rec2.inbreng →
      rec2.lening < rec1.lening ∧ rec2.maand < rec1.maand ∧
      rec2.totaleAfbetaling < rec1.totaleAfbetaling := by
  intro rec1 h1 rec2 h2 hlt
  obtain ⟨E1, hE1, hle1, rfl⟩ := mem_cellRecords.mp h1
  obtain ⟨E2, hE2, hle2, rfl⟩ := mem_cellRecords.mp h2
  simp only [recordAt_inbreng] at hlt
  obtain ⟨c, hc, hlin⟩ := maandlastPos_linear (rente / 100) looptijd (by positivity) hy
  have hL : ((price - (E2 : ℤ) : ℤ) : ℚ) < ((price - (E1 : ℤ) : ℤ) : ℚ) := by
    have h : price - (E2 : ℤ) < price - (E1 : ℤ) := by omega
    exact_mod_cast h
  have hmaand : maandlastPos ((price - (E2 : ℤ) : ℤ) : ℚ) (rente / 100) looptijd <
      maandlastPos ((price - (E1 : ℤ) : ℤ) : ℚ) (rente / 100) looptijd := by
    rw [hlin, hlin]
    exact mul_lt_mul_of_pos_right hL hc
  have hcast : (0 : ℚ) < (looptijd : ℚ) := by exact_mod_cast hy
  refine ⟨by simp only [recordAt_lening]; omega, by simpa using hmaand, ?_⟩
  simp only [recordAt_totaleAfbetaling]
  nlinarith [hmaand, hcast]

/-- Witness for claim C7 on a concrete cell: price 2000, savings 1000,
term 1, rate 0, comparing down payments 0 and 1000. -/
theorem claim7_witness :
    (recordAt 2000 1000 1 0 1 (fun _ _ => 0) 1000).lening <
      (recordAt 2000 1000 1 0 1 (fun _ _ => 0) 0).lening ∧
    (recordAt 2000 1000 1 0 1 (fun _ _ => 0) 1000).maand <
      (recordAt 2000 1000 1 0 1 (fun _ _ => 0) 0).maand ∧
    (recordAt 2000 1000 1 0 1 (fun _ _ => 0) 1000).totaleAfbetaling <
      (recordAt 2000 1000 1 0 1 (fun _ _ => 0) 0).totaleAfbetaling :=
  claim7_grid_monotonicity 2000 1000 1 0 1 (fun _ _ _ => 0) (by norm_num) (by norm_num)
    (recordAt 2000 1000 1 0 1 (fun _ _ => 0) 0)
    (mem_cellRecords.mpr ⟨0, by decide, by norm_num, rfl⟩)
    (recordAt 2000 1000 1 0 1 (fun _ _ => 0) 1000)
    (mem_cellRecords.mpr ⟨1000, by decide, by norm_num, rfl⟩)
    (by decide)

lemma cumprod_length (l : List ℚ) : (cumprod l).length = l.length := by
  simp [cumprod]

/-- The last entry of the cumulative product is the product of the
whole list. -/
lemma cumprod_getD_last (l : List ℚ) (h : l ≠ []) :
    (cumprod l).getD ((cumprod l).length - 1) 1 = l.prod := by
  have hl : l.length ≠ 0 := fun h0 => h (List.length_eq_zero.mp h0)
  have hlt : (cumprod l).length - 1 < (cumprod l).length := by
    rw [cumprod_length]
    omega
  rw [List.getD_eq_getElem _ _ hlt]
  simp only [cumprod, List.getElem_map, List.getElem_range, List.length_map, List.length_range]
  rw [show l.length - 1 + 1 = l.length by omega, List.take_length]

lemma eindwaardenPos_length (K : ℚ) (draws : ℕ → ℕ → ℚ) (nSim years : ℕ) :
    (eindwaardenPos K draws nSim years).length = nSim := by
  simp [eindwaardenPos]

/-- Every entry of `eindwaardenPos` is the capital times the product of
the per-period growth factors of some trial. -/
lemma eindwaardenPos_elem (K : ℚ) (draws : ℕ → ℕ → ℚ) (nSim years : ℕ) (hy : 0 < years) :
    ∀ x ∈ eindwaardenPos K draws nSim years,
      ∃ i, i < nSim ∧ x = K * ((List.range years).map (fun t => 1 + draws i t)).prod := by
  intro x hx
  simp only [eindwaardenPos, List.mem_map, List.mem_range] at hx
  obtain ⟨i, hi, rfl⟩ := hx
  refine ⟨i, hi, ?_⟩
  rw [cumprod_getD_last _ (by simp [hy.ne'])]

/-- Claim C5: for a positive horizon the simulator returns (without
raising) the vector of terminal values, one per trial: its length is
exactly the trial count and entry `i` is the initial capital times the
final cumulative product of `1 + draws i t` over the `years` periods of
trial `i`. -/
theorem claim5_simulator (K : ℚ) (draws : ℕ → ℕ → ℚ) (nSim years : ℕ) (hy : 0 < years) :
    monte_carlo_etf_return K draws nSim years = some (eindwaardenPos K draws nSim years) ∧
    (eindwaardenPos K draws nSim years).length = nSim ∧
    ∀ i, i < nSim → (eindwaardenPos K draws nSim years).getD i 0 =
      K * ((List.range years).map (fun t => 1 + draws i t)).prod := by
  refine ⟨by simp [monte_carlo_etf_return, hy.ne'], eindwaardenPos_length K draws nSim years, ?_⟩
  intro i hi
  have hlt : i < (eindwaardenPos K draws nSim years).length := by
    rw [eindwaardenPos_length]
    exact hi
  rw [List.getD_eq_getElem _ _ hlt]
  simp only [eindwaardenPos, List.getElem_map, List.getElem_range]
  rw [cumprod_getD_last _ (by simp [hy.ne'])]

/-- Witness for claim C5 at capital 5, constant draws 1, 3 trials, 2
years. -/
theorem claim5_witness :
    monte_carlo_etf_return 5 (fun _ _ => 1) 3 2 = some (eindwaardenPos 5 (fun _ _ => 1) 3 2) :=
  (claim5_simulator 5 (fun _ _ => 1) 3 2 (by norm_num)).1

lemma insertAsc_length (a : ℚ) (l : List ℚ) : (insertAsc a l).length = l.length + 1 := by
  induction l with
  | nil => rfl
  | cons b l ih =>
    by_cases h : a ≤ b
    · simp [insertAsc, h]
    · simp [insertAsc, h, ih]

lemma sortAsc_length (l : List ℚ) : (sortAsc l).length = l.length := by
  induction l with
  | nil => rfl
  | cons a l ih => simp [sortAsc, insertAsc_length, ih]

lemma insertAsc_const {c a : ℚ} {l : List ℚ} (hl : ∀ x ∈ l, x = c) (ha : a = c) :
    ∀ x ∈ insertAsc a l, x = c := by
  induction l with
  | nil =>
    intro x hx
    rw [insertAsc] at hx
    rcases List.mem_singleton.mp hx with rfl
    exact ha
  | cons b l ih =>
    intro x hx
    by_cases hab : a ≤ b
    · rw [insertAsc, if_pos hab] at hx
      rcases List.mem_cons.mp hx with rfl | hx2
      · exact ha
      · exact hl x hx2
    · rw [insertAsc, if_neg hab] at hx
      rcases List.mem_cons.mp hx with rfl | hx2
      · exact hl x (List.mem_cons_self x l)
      · exact ih (fun y hy => hl y (List.mem_cons_of_mem b hy)) x hx2

lemma sortAsc_const {c : ℚ} {l : List ℚ} (hl : ∀ x ∈ l, x = c) :
    ∀ x ∈ sortAsc l, x = c := by
  induction l with
  | nil => intro x hx; cases hx
  | cons a l ih =>
    exact insertAsc_const (ih (fun y hy => hl y (List.mem_cons_of_mem a hy)))
      (hl a (List.mem_cons_self a l))

lemma getD_const {c : ℚ} {l : List ℚ} (hl : ∀ x ∈ l, x = c) {i : ℕ} (hi : i < l.length) :
    l.getD i 0 = c := by
  rw [List.getD_eq_getElem _ _ hi]
  exact hl _ (List.getElem_mem hi)

lemma npMean_const {c : ℚ} {l : List ℚ} (hl : ∀ x ∈ l, x = c) (h0 : l ≠ []) :
    npMean l = c := by
  have hn : (l.length : ℚ) ≠ 0 := by
    have : l.length ≠ 0 := fun h => h0 (List.length_eq_zero.mp h)
    exact_mod_cast this
  rw [npMean, List.sum_eq_card_nsmul l c hl, nsmul_eq_mul]
  exact mul_div_cancel_left₀ c hn

/-- On a list with all entries equal, any percentile with `0 ≤ q ≤ 100`
returns that common entry. -/
lemma npPercentile_const {c : ℚ} {l : List ℚ} (hl : ∀ x ∈ l, x = c) (h0 : l ≠ [])
    {q : ℚ} (hq0 : 0 ≤ q) (hq1 : q ≤ 100) : npPercentile q l = c := by
  have hsc : ∀ x ∈ sortAsc l, x = c := sortAsc_const hl
  have hn : 1 ≤ l.length := List.length_pos.mpr (by simpa using h0)
  have hn1 : (1 : ℚ) ≤ ((sortAsc l).length : ℚ) := by
    rw [sortAsc_length]
    exact_mod_cast hn
  set h : ℚ := (((sortAsc l).length : ℚ) - 1) * q / 100 with hh
  have hh0 : 0 ≤ h := by
    rw [hh]
    apply div_nonneg (mul_nonneg (by linarith) hq0) (by norm_num)
  have hhle : h ≤ ((sortAsc l).length : ℚ) - 1 := by
    rw [hh, div_le_iff₀ (by norm_num : (0 : ℚ) < 100)]
    nlinarith
  have hfl0 : 0 ≤ ⌊h⌋ := Int.floor_nonneg.mpr hh0
  have hflle : ⌊h⌋ ≤ ((sortAsc l).length : ℤ) - 1 := by
    have h2 : h ≤ ((((sortAsc l).length : ℤ) - 1 : ℤ) : ℚ) := by
      push_cast
      linarith
    calc ⌊h⌋ ≤ ⌊((((sortAsc l).length : ℤ) - 1 : ℤ) : ℚ)⌋ := Int.floor_le_floor h2
      _ = ((sortAsc l).length : ℤ) - 1 := Int.floor_intCast _
  have hcl0 : 0 ≤ ⌈h⌉ := Int.ceil_nonneg hh0
  have hclle : ⌈h⌉ ≤ ((sortAsc l).length : ℤ) - 1 := by
    apply Int.ceil_le.mpr
    push_cast
    linarith
  have hlen0 : 1 ≤ (sortAsc l).length := by
    rw [sortAsc_length]
    exact hn
  have hlo : ⌊h⌋.toNat < (sortAsc l).length := by omega
  have hhi : ⌈h⌉.toNat < (sortAsc l).length := by omega
  simp only [npPercentile, ← hh]
  rw [getD_const hsc hlo, getD_const hsc hhi]
  ring

lemma eindwaardenPos_ne_nil (K : ℚ) (draws : ℕ → ℕ → ℚ) (nSim years : ℕ) (hn : 0 < nSim) :
    eindwaardenPos K draws nSim years ≠ [] := by
  intro h
  have := congrArg List.length h
  rw [eindwaardenPos_length] at this
  simp at this
  omega

/-- Claim C8: with every draw equal to the mean (the behaviour of
`np.random.normal` at volatility zero) all terminal values equal
`K·(1+μ)^years`, and the sample mean and 5th percentile both equal that
value; and with zero initial capital every terminal value is zero no
matter what the draws are. -/
theorem claim8_degenerate (μ K : ℚ) (draws : ℕ → ℕ → ℚ) (nSim years : ℕ)
    (hy : 0 < years) (hn : 0 < nSim) :
    ((∀ i t, draws i t = μ) →
      (∀ x ∈ eindwaardenPos K draws nSim years, x = K * (1 + μ) ^ years) ∧
      npMean (eindwaardenPos K draws nSim years) = K * (1 + μ) ^ years ∧
      npPercentile 5 (eindwaardenPos K draws nSim years) = K * (1 + μ) ^ years) ∧
    (∀ x ∈ eindwaardenPos 0 draws nSim years, x = 0) := by
  constructor
  · intro hconst
    have hall : ∀ x ∈ eindwaardenPos K draws nSim years, x = K * (1 + μ) ^ years := by
      intro x hx
      obtain ⟨i, hi, rfl⟩ := eindwaardenPos_elem K draws nSim years hy x hx
      have hrow : (List.range years).map (fun t => 1 + draws i t) =
          List.replicate years (1 + μ) := by
        have : (fun t => 1 + draws i t) = fun _ : ℕ => 1 + μ := by
          funext t
          rw [hconst i t]
        rw [this]
        simp [List.eq_replicate_iff]
      rw [hrow, List.prod_replicate]
    have hne := eindwaardenPos_ne_nil K draws nSim years hn
    exact ⟨hall, npMean_const hall hne,
      npPercentile_const hall hne (by norm_num) (by norm_num)⟩
  · intro x hx
    obtain ⟨i, _, rfl⟩ := eindwaardenPos_elem 0 draws nSim years hy x hx
    exact zero_mul _

/-- Witness for claim C8: one trial, one year, constant draws equal to
the mean 1, zero capital. -/
theorem claim8_witness :
    npMean (eindwaardenPos 0 (fun _ _ => 1) 1 1) = 0 * (1 + 1) ^ 1 :=
  (((claim8_degenerate 1 0 (fun _ _ => 1) 1 1 (by norm_num) (by norm_num)).1
    (fun _ _ => rfl)).2).1

lemma firstMinBy_eq_none_iff (f : ScenarioRecord → ℚ) (l : List ScenarioRecord) :
    firstMinBy f l = none ↔ l = [] := by
  cases l with
  | nil => simp [firstMinBy]
  | cons x xs =>
    simp only [firstMinBy]
    cases hx : firstMinBy f xs <;> simp

lemma firstMinBy_isSome (f : ScenarioRecord → ℚ) (l : List ScenarioRecord) (h : l ≠ []) :
    (firstMinBy f l).isSome = true := by
  cases hx : firstMinBy f l with
  | none => exact absurd ((firstMinBy_eq_none_iff f l).mp hx) h
  | some m => rfl

lemma firstMinBy_mem (f : ScenarioRecord → ℚ) :
    ∀ (l : List ScenarioRecord) (m : ScenarioRecord), firstMinBy f l = some m → m ∈ l := by
  intro l
  induction l with
  | nil => intro m h; cases h
  | cons x xs ih =>
    intro m h
    rw [firstMinBy] at h
    cases hx : firstMinBy f xs with
    | none =>
      rw [hx] at h
      obtain rfl := Option.some.inj h
      exact List.mem_cons_self x xs
    | some y =>
      rw [hx] at h
      obtain rfl := Option.some.inj h
      by_cases hf : f x ≤ f y
      · rw [if_pos hf]
        exact List.mem_cons_self x xs
      · rw [if_neg hf]
        exact List.mem_cons_of_mem x (ih y hx)

/-- The record `firstMinBy` selects minimizes `f` over the list. -/
lemma firstMinBy_le (f : ScenarioRecord → ℚ) :
    ∀ (l : List ScenarioRecord) (m : ScenarioRecord), firstMinBy f l = some m →
      ∀ rec ∈ l, f m ≤ f rec := by
  intro l
  induction l with
  | nil => intro m h; cases h
  | cons x xs ih =>
    intro m h rec hrec
    rw [firstMinBy] at h
    cases hx : firstMinBy f xs with
    | none =>
      rw [hx] at h
      obtain rfl := Option.some.inj h
      have hxs : xs = [] := (firstMinBy_eq_none_iff f xs).mp hx
      subst hxs
      rcases List.mem_cons.mp hrec with rfl | hrec2
      · exact le_refl _
      · cases hrec2
    | some y =>
      rw [hx] at h
      obtain rfl := Option.some.inj h
      rcases List.mem_cons.mp hrec with rfl | hrec2
      · by_cases hf : f rec ≤ f y
        · rw [if_pos hf]
        · rw [if_neg hf]
          exact (lt_of_not_le hf).le
      · by_cases hf : f x ≤ f y
        · rw [if_pos hf]
          exact le_trans hf (ih y hx rec hrec2)
        · rw [if_neg hf]
          exact ih y hx rec hrec2

/-- Among records tying for the minimum, `firstMinBy` picks the one
with the smallest down payment whenever the list's down payments are
strictly increasing. -/
lemma firstMinBy_tie (f : ScenarioRecord → ℚ) :
    ∀ (l : List ScenarioRecord), l.Pairwise (fun a b => a.inbreng < b.inbreng) →
      ∀ m, firstMinBy f l = some m →
        ∀ rec ∈ l, f rec = f m → m.inbreng ≤ rec.inbreng := by
  intro l
  induction l with
  | nil => intro _ m h; cases h
  | cons x xs ih =>
    intro hp m h rec hrec heq
    obtain ⟨hhead, htail⟩ := List.pairwise_cons.mp hp
    rw [firstMinBy] at h
    cases hx : firstMinBy f xs with
    | none =>
      rw [hx] at h
      obtain rfl := Option.some.inj h
      rcases List.mem_cons.mp hrec with rfl | hrec2
      · exact le_refl _
      · exact (hhead rec hrec2).le
    | some y =>
      rw [hx] at h
      obtain rfl := Option.some.inj h
      by_cases hf : f x ≤ f y
      · rw [if_pos hf]
        rcases List.mem_cons.mp hrec with rfl | hrec2
        · exact le_refl _
        · exact (hhead rec hrec2).le
      · rw [if_neg hf] at heq ⊢
        have hyx : f y < f x := lt_of_not_le hf
        rcases List.mem_cons.mp hrec with rfl | hrec2
        · exact absurd (heq ▸ hyx) (lt_irrefl _)
        · exact ih htail y hx rec hrec2 heq

/-- Claim C3: for any nonempty `(term, rate)` group of a scenario
table, the selection by `idxmin` exists, belongs to the group, and its
cost is a lower bound for the group — independently for the mean-cost
and the worst-case-cost metrics. -/
theorem claim3_optimizer (t : ℕ) (r : ℚ) (table : List ScenarioRecord)
    (h : groupFor t r table ≠ []) :
    (firstMinBy ScenarioRecord.nettoKostMean (groupFor t r table)).isSome = true ∧
    (∀ m, firstMinBy ScenarioRecord.nettoKostMean (groupFor t r table) = some m →
      m ∈ groupFor t r table ∧
      ∀ rec ∈ groupFor t r table, m.nettoKostMean ≤ rec.nettoKostMean) ∧
    (firstMinBy ScenarioRecord.nettoKostWorst (groupFor t r table)).isSome = true ∧
    (∀ m, firstMinBy ScenarioRecord.nettoKostWorst (groupFor t r table) = some m →
      m ∈ groupFor t r table ∧
      ∀ rec ∈ groupFor t r table, m.nettoKostWorst ≤ rec.nettoKostWorst) := by
  refine ⟨firstMinBy_isSome _ _ h, ?_, firstMinBy_isSome _ _ h, ?_⟩
  · intro m hm
    exact ⟨firstMinBy_mem _ _ m hm, firstMinBy_le _ _ m hm⟩
  · intro m hm
    exact ⟨firstMinBy_mem _ _ m hm, firstMinBy_le _ _ m hm⟩

/-- Witness for claim C3 on a one-record group. -/
theorem claim3_witness :
    (firstMinBy ScenarioRecord.nettoKostMean
      (groupFor 1 0 [recordAt 0 0 1 0 1 (fun _ _ => 0) 0])).isSome = true :=
  (claim3_optimizer 1 0 [recordAt 0 0 1 0 1 (fun _ _ => 0) 0] (by simp [groupFor])).1

/-- Every record a cell emits carries that cell's term and rate. -/
lemma cellRecords_key {price : ℤ} {savings looptijd : ℕ} {rente : ℚ} {nSim : ℕ}
    {draws : ℕ → ℕ → ℕ → ℚ} {rec : ScenarioRecord}
    (h : rec ∈ cellRecords price savings looptijd rente nSim draws) :
    rec.looptijd = looptijd ∧ rec.rente = rente := by
  obtain ⟨E, -, -, rfl⟩ := mem_cellRecords.mp h
  exact ⟨rfl, rfl⟩

lemma filter_cell_eq (price : ℤ) (savings looptijd : ℕ) (rente : ℚ) (nSim : ℕ)
    (draws : ℕ → ℕ → ℕ → ℚ) :
    (cellRecords price savings looptijd rente nSim draws).filter
      (fun rec => decide (rec.looptijd = looptijd ∧ rec.rente = rente)) =
      cellRecords price savings looptijd rente nSim draws := by
  apply List.filter_eq_self.mpr
  intro rec hrec
  obtain ⟨h1, h2⟩ := cellRecords_key hrec
  simp [h1, h2]

lemma filter_cell_ne (t : ℕ) (r : ℚ) (price : ℤ) (savings looptijd : ℕ) (rente : ℚ)
    (nSim : ℕ) (draws : ℕ → ℕ → ℕ → ℚ) (hne : ¬(looptijd = t ∧ rente = r)) :
    (cellRecords price savings looptijd rente nSim draws).filter
      (fun rec => decide (rec.looptijd = t ∧ rec.rente = r)) = [] := by
  apply List.filter_eq_nil_iff.mpr
  intro rec hrec
  obtain ⟨h1, h2⟩ := cellRecords_key hrec
  simp only [h1, h2, decide_eq_true_eq]
  exact hne

lemma filter_rates_eq (price : ℤ) (savings t : ℕ) (rates : List ℚ) (nSim : ℕ)
    (drawsR : ℚ → ℕ → ℕ → ℕ → ℚ) (r : ℚ) (hR : rates.Nodup) (hr : r ∈ rates) :
    (rates.flatMap (fun r' => cellRecords price savings t r' nSim (drawsR r'))).filter
      (fun rec => decide (rec.looptijd = t ∧ rec.rente = r)) =
      cellRecords price savings t r nSim (drawsR r) := by
  induction rates with
  | nil => cases hr
  | cons r0 rs ih =>
    obtain ⟨hnotin, hnd⟩ := List.nodup_cons.mp hR
    rw [List.flatMap_cons, List.filter_append]
    rcases List.mem_cons.mp hr with rfl | hmem
    · rw [filter_cell_eq]
      have hrest : (rs.flatMap (fun r' => cellRecords price savings t r' nSim (drawsR r'))).filter
          (fun rec => decide (rec.looptijd = t ∧ rec.rente = r)) = [] := by
        apply List.filter_eq_nil_iff.mpr
        intro rec hrec
        obtain ⟨r', hr', hrec'⟩ := List.mem_flatMap.mp hrec
        obtain ⟨h1, h2⟩ := cellRecords_key hrec'
        simp only [h1, h2, decide_eq_true_eq]
        rintro ⟨-, rfl⟩
        exact hnotin hr'
      rw [hrest, List.append_nil]
    · have hr0 : ¬(t = t ∧ r0 = r) := by
        rintro ⟨-, rfl⟩
        exact hnotin hmem
      rw [filter_cell_ne t r price savings t r0 nSim (drawsR r0) hr0, List.nil_append]
      exact ih hnd hmem

/-- The pandas group for key `(t, r)` is exactly the records of that
cell, in their original order, when the requested term and rate lists
have no duplicates. -/
lemma groupFor_scenarioTable (price : ℤ) (savings : ℕ) (terms : List ℕ) (rates : List ℚ)
    (nSim : ℕ) (draws : ℕ → ℚ → ℕ → ℕ → ℕ → ℚ) (t : ℕ) (r : ℚ)
    (hT : terms.Nodup) (hR : rates.Nodup) (ht : t ∈ terms) (hr : r ∈ rates) :
    groupFor t r (scenarioTable price savings terms rates nSim draws) =
      cellRecords price savings t r nSim (draws t r) := by
  unfold groupFor scenarioTable
  induction terms with
  | nil => cases ht
  | cons t0 ts ih =>
    obtain ⟨hnotin, hnd⟩ := List.nodup_cons.mp hT
    rw [List.flatMap_cons, List.filter_append]
    rcases List.mem_cons.mp ht with rfl | hmem
    · rw [filter_rates_eq price savings t rates nSim (draws t) r hR hr]
      have hrest : (ts.flatMap (fun t' => rates.flatMap
          (fun r' => cellRecords price savings t' r' nSim (draws t' r')))).filter
          (fun rec => decide (rec.looptijd = t ∧ rec.rente = r)) = [] := by
        apply List.filter_eq_nil_iff.mpr
        intro rec hrec
        obtain ⟨t', ht', hrec'⟩ := List.mem_flatMap.mp hrec
        obtain ⟨r', hr', hrec''⟩ := List.mem_flatMap.mp hrec'
        obtain ⟨h1, h2⟩ := cellRecords_key hrec''
        simp only [h1, h2, decide_eq_true_eq]
        rintro ⟨rfl, -⟩
        exact hnotin ht'
      rw [hrest, List.append_nil]
    · have ht0 : (rates.flatMap (fun r' => cellRecords price savings t0 r' nSim
          (draws t0 r'))).filter
          (fun rec => decide (rec.looptijd = t ∧ rec.rente = r)) = [] := by
        apply List.filter_eq_nil_iff.mpr
        intro rec hrec
        obtain ⟨r', hr', hrec'⟩ := List.mem_flatMap.mp hrec
        obtain ⟨h1, h2⟩ := cellRecords_key hrec'
        simp only [h1, h2, decide_eq_true_eq]
        rintro ⟨rfl, -⟩
        exact hnotin hmem
      rw [ht0, List.nil_append]
      exact ih hnd hmem

/-- `mkRecord` only produces a record whose down payment is the grid
value it was given. -/
lemma mkRecord_inbreng {price : ℤ} {savings looptijd : ℕ} {rente : ℚ} {nSim : ℕ}
    {draws : ℕ → ℕ → ℚ} {E : ℕ} {rec : ScenarioRecord}
    (h : mkRecord price savings looptijd rente nSim draws E = some rec) :
    rec.inbreng = E := by
  rw [mkRecord] at h
  by_cases hL : price - (E : ℤ) < 0
  · rw [if_pos hL] at h
    cases h
  · rw [if_neg hL] at h
    obtain rfl := Option.some.inj h
    rfl

lemma pairwise_filterMap_inbreng (g : ℕ → Option ScenarioRecord)
    (hgE : ∀ E rec, g E = some rec → rec.inbreng = E) :
    ∀ l : List ℕ, l.Pairwise (· < ·) →
      (l.filterMap g).Pairwise (fun a b => a.inbreng < b.inbreng) := by
  intro l
  induction l with
  | nil =>
    intro _
    simp
  | cons a l ih =>
    intro hp
    obtain ⟨hhead, htail⟩ := List.pairwise_cons.mp hp
    rw [List.filterMap_cons]
    cases hga : g a with
    | none => exact ih htail
    | some rec =>
      rw [List.pairwise_cons]
      refine ⟨?_, ih htail⟩
      intro b hb
      obtain ⟨E, hE, hgb⟩ := List.mem_filterMap.mp hb
      rw [hgE a rec hga, hgE E b hgb]
      exact hhead E hE

/-- The records of one cell have strictly increasing down payments, in
list order. -/
lemma cellRecords_pairwise (price : ℤ) (savings looptijd : ℕ) (rente : ℚ) (nSim : ℕ)
    (draws : ℕ → ℕ → ℕ → ℚ) :
    (cellRecords price savings looptijd rente nSim draws).Pairwise
      (fun a b => a.inbreng < b.inbreng) := by
  have hgrid : (inbreng_values savings).Pairwise (· < ·) := by
    unfold inbreng_values
    refine List.pairwise_map.mpr ?_
    refine (List.pairwise_lt_range _).imp ?_
    intro a b hab
    omega
  exact pairwise_filterMap_inbreng _ (fun E rec h => mkRecord_inbreng h) _ hgrid

/-- Claim C10: when several records of a `(term, rate)` group tie for
the minimal mean (resp. worst-case) net cost, the `idxmin` selection is
the earliest record in enumeration order, which has the smallest down
payment of the tied records, because the group enumerates down payments
in ascending order. -/
theorem claim10_tiebreak (price : ℤ) (savings : ℕ) (terms : List ℕ) (rates : List ℚ)
    (nSim : ℕ) (draws : ℕ → ℚ → ℕ → ℕ → ℕ → ℚ) (t : ℕ) (r : ℚ)
    (hT : terms.Nodup) (hR : rates.Nodup) (ht : t ∈ terms) (hr : r ∈ rates) :
    (∀ m, firstMinBy ScenarioRecord.nettoKostMean
        (groupFor t r (scenarioTable price savings terms rates nSim draws)) = some m →
      ∀ rec ∈ groupFor t r (scenarioTable price savings terms rates nSim draws),
        rec.nettoKostMean = m.nettoKostMean → m.inbreng ≤ rec.inbreng) ∧
    (∀ m, firstMinBy ScenarioRecord.nettoKostWorst
        (groupFor t r (scenarioTable price savings terms rates nSim draws)) = some m →
      ∀ rec ∈ groupFor t r (scenarioTable price savings terms rates nSim draws),
        rec.nettoKostWorst = m.nettoKostWorst → m.inbreng ≤ rec.inbreng) := by
  rw [groupFor_scenarioTable price savings terms rates nSim draws t r hT hR ht hr]
  have hpw := cellRecords_pairwise price savings t r nSim (draws t r)
  exact ⟨fun m hm => firstMinBy_tie _ _ hpw m hm, fun m hm => firstMinBy_tie _ _ hpw m hm⟩

/-- Witness for claim C10 on a one-record group (price 0, savings 0,
term 1, rate 0). -/
theorem claim10_witness :
    (recordAt 0 0 1 0 1 (fun _ _ => 0) 0).inbreng ≤
      (recordAt 0 0 1 0 1 (fun _ _ => 0) 0).inbreng := by
  have hbridge := groupFor_scenarioTable 0 0 [1] [0] 1 (fun _ _ _ _ _ => 0) 1 0
    (by simp) (by simp) (by simp) (by simp)
  have hcell : cellRecords 0 0 1 0 1 (fun _ _ _ => (0 : ℚ)) =
      [recordAt 0 0 1 0 1 (fun _ _ => 0) 0] := rfl
  have hm : firstMinBy ScenarioRecord.nettoKostMean
      (groupFor 1 0 (scenarioTable 0 0 [1] [0] 1 (fun _ _ _ _ _ => 0))) =
      some (recordAt 0 0 1 0 1 (fun _ _ => 0) 0) := by
    rw [hbridge, hcell]
    rfl
  have hmem : recordAt 0 0 1 0 1 (fun _ _ => 0) 0 ∈
      groupFor 1 0 (scenarioTable 0 0 [1] [0] 1 (fun _ _ _ _ _ => 0)) := by
    rw [hbridge, hcell]
    exact List.mem_singleton.mpr rfl
  exact (claim10_tiebreak 0 0 [1] [0] 1 (fun _ _ _ _ _ => 0) 1 0
      (by simp) (by simp) (by simp) (by simp)).1
    (recordAt 0 0 1 0 1 (fun _ _ => 0) 0) hm
    (recordAt 0 0 1 0 1 (fun _ _ => 0) 0) hmem rfl

/-- Counterexample to claim C2 as stated: the grid is not inclusive of
the upper end when the savings are not a multiple of the 1000 step.
With savings 1500 the value 1500 is not on the grid (the grid is
`[0, 1000]`). -/
theorem claim2_counterexample : ¬ (1500 ∈ inbreng_values 1500) := by decide

/-- Claim C2 (amended): the down-payment grid holds exactly the
multiples of 1000 up to the savings — so it starts at 0 and ends at the
largest multiple of 1000 not exceeding the savings, containing the
savings itself only when the savings divide by 1000; every emitted
record has a nonnegative loan amount; a grid down payment is emitted
precisely when it does not exceed the price (larger ones are silently
skipped); and the table is the Cartesian enumeration of every requested
term and rate over the grid. -/
theorem claim2_grid (price : ℤ) (savings : ℕ) (t : ℕ) (r : ℚ) (nSim : ℕ)
    (draws : ℕ → ℕ → ℕ → ℚ) (terms : List ℕ) (rates : List ℚ)
    (drawsF : ℕ → ℚ → ℕ → ℕ → ℕ → ℚ) :
    (∀ E ∈ inbreng_values savings, 1000 ∣ E ∧ E ≤ savings) ∧
    (∀ E : ℕ, 1000 ∣ E → E ≤ savings → E ∈ inbreng_values savings) ∧
    (savings ∈ inbreng_values savings ↔ 1000 ∣ savings) ∧
    (∀ rec ∈ cellRecords price savings t r nSim draws, 0 ≤ rec.lening) ∧
    (∀ E ∈ inbreng_values savings, ((E : ℤ) ≤ price ↔
      recordAt price savings t r nSim (draws E) E ∈
        cellRecords price savings t r nSim draws)) ∧
    (∀ rec, rec ∈ scenarioTable price savings terms rates nSim drawsF ↔
      ∃ t' ∈ terms, ∃ r' ∈ rates,
        rec ∈ cellRecords price savings t' r' nSim (drawsF t' r')) := by
  refine ⟨fun E hE => mem_inbreng_values.mp hE,
    fun E h1 h2 => mem_inbreng_values.mpr ⟨h1, h2⟩,
    ⟨fun h => (mem_inbreng_values.mp h).1,
     fun h => mem_inbreng_values.mpr ⟨h, le_refl savings⟩⟩, ?_, ?_, ?_⟩
  · intro rec hrec
    obtain ⟨E, -, hle, rfl⟩ := mem_cellRecords.mp hrec
    simp only [recordAt_lening]
    omega
  · intro E hE
    constructor
    · intro hle
      exact mem_cellRecords.mpr ⟨E, hE, hle, rfl⟩
    · intro hmem
      obtain ⟨E', -, hle', heq⟩ := mem_cellRecords.mp hmem
      have : E = E' := by
        have h1 := congrArg ScenarioRecord.inbreng heq
        simpa using h1
      rw [this]
      exact hle'
  · intro rec
    simp [scenarioTable, List.mem_flatMap]

/-- Witness for claim C2's amended theorem: 0 is always on the grid,
here for savings 1500. -/
theorem claim2_witness : (0 : ℕ) ∈ inbreng_values 1500 :=
  (claim2_grid 0 1500 0 0 0 (fun _ _ _ => 0) [] [] (fun _ _ _ _ _ => 0)).2.1 0
    ⟨0, rfl⟩ (Nat.zero_le 1500)

@[simp] lemma recordAt_gemOpbrengst (price : ℤ) (savings looptijd : ℕ) (rente : ℚ)
    (nSim : ℕ) (draws : ℕ → ℕ → ℚ) (E : ℕ) :
    (recordAt price savings looptijd rente nSim draws E).gemOpbrengst =
      npMean (eindwaardenPos ((savings : ℚ) - (E : ℚ)) draws nSim looptijd) := rfl

lemma eindwaardenPos_one_one (K : ℚ) (d : ℕ → ℕ → ℚ) :
    eindwaardenPos K d 1 1 = [K * (1 + d 0 0)] := by
  simp [eindwaardenPos, cumprod, List.range_succ]

/-- Counterexample to claim C9 as stated: the randomness source is the
process-global generator, not an injected one, and the configuration
alone does not determine the output.  With the same configuration
(price 2000, savings 1000, term 1, rate 0, one trial) but two different
ambient sample streams (all draws 0 versus all draws 1), the generated
record sets differ. -/
theorem claim9_counterexample :
    scenarioTable 2000 1000 [1] [0] 1 (fun _ _ _ _ _ => 0) ≠
      scenarioTable 2000 1000 [1] [0] 1 (fun _ _ _ _ _ => 1) := by
  intro h
  have hA : scenarioTable 2000 1000 [1] [0] 1 (fun _ _ _ _ _ => 0) =
      [recordAt 2000 1000 1 0 1 (fun _ _ => 0) 0,
       recordAt 2000 1000 1 0 1 (fun _ _ => 0) 1000] := rfl
  have hB : scenarioTable 2000 1000 [1] [0] 1 (fun _ _ _ _ _ => 1) =
      [recordAt 2000 1000 1 0 1 (fun _ _ => 1) 0,
       recordAt 2000 1000 1 0 1 (fun _ _ => 1) 1000] := rfl
  rw [hA, hB] at h
  have h2 := congrArg (fun l => (l.map ScenarioRecord.gemOpbrengst).getD 0 0) h
  simp only [List.map_cons, List.getD_cons_zero, recordAt_gemOpbrengst] at h2
  rw [eindwaardenPos_one_one, eindwaardenPos_one_one] at h2
  norm_num [npMean] at h2

/-- Claim C9 (amended): the engine's output is a deterministic function
of the configuration together with the consumed random stream: two runs
with the same configuration whose ambient generators yield the same
samples produce an identical record set.  (The stream itself is the
process-global NumPy generator, not an injected seeded one, so the
configuration alone does not determine the output — see the
counterexample.) -/
theorem claim9_stream_determinism (price : ℤ) (savings : ℕ) (terms : List ℕ)
    (rates : List ℚ) (nSim : ℕ) (d1 d2 : ℕ → ℚ → ℕ → ℕ → ℕ → ℚ)
    (h : ∀ t r E i p, d1 t r E i p = d2 t r E i p) :
    scenarioTable price savings terms rates nSim d1 =
      scenarioTable price savings terms rates nSim d2 := by
  have hd : d1 = d2 := by
    funext t r E i p
    exact h t r E i p
  rw [hd]

/-- Witness for claim C9's amended theorem on a concrete configuration
and stream. -/
theorem claim9_witness :
    scenarioTable 2000 1000 [1] [0] 1 (fun _ _ _ _ _ => 0) =
      scenarioTable 2000 1000 [1] [0] 1 (fun _ _ _ _ _ => 0) :=
  claim9_stream_determinism 2000 1000 [1] [0] 1 _ _ (fun _ _ _ _ _ => rfl)

end PersonalFinance
